import Mathlib

/-!
Shallow embedding of `examples/class_activation_maps.py`, a single-file
Class Activation Mapping (CAM) demonstration script, together with proofs
of the specification's claims about it.

Conventions of the embedding:
  * numpy float arrays are modelled over `ℚ`; a 2-D array is a
    `List (List ℚ)` (rows of pixels), a 4-D array
    (batch x height x width x channel) is a `List (List (List (List ℚ)))`;
  * `np.argsort` is modelled with a merge sort of the index range by value
    (ascending), one of the sorting permutations numpy may return;
  * Python's negative slice `l[-k:]` is modelled by `sliceFromNegK`,
    keeping its quirk that `l[-0:]` is the whole list;
  * image decoding (`cv2.imread`), resizing (`cv2.resize`) and the
    pretrained keras backbones are external collaborators of the script;
    the spec treats them as given, and they are modelled by shape-faithful
    functions marked `Modelled from the spec:` in their doc comments.
-/

namespace ClassActivationMaps

/-- A 2-D numpy array (for example one spatial activation map). -/
abbrev Mat : Type := List (List ℚ)

/-- A 4-D numpy array, batch x height x width x channel, as returned for the
activation-map output of the CAM model. -/
abbrev Tensor4 : Type := List (List (List (List ℚ)))

/-- Source constant `N_CLASSES = 1000`. -/
def N_CLASSES : Nat := 1000

/-- `cams[0, :, :, i]`: the 2-D spatial slice of channel `i` of the first
batch element. -/
def camSlice (cams : Tensor4) (i : Nat) : Mat :=
  (cams.headD []).map (fun row => row.map (fun px => px.getD i 0))

/-- `np.zeros_like` of a 2-D array: same shape, all entries `0`. -/
def zeros_like (m : Mat) : Mat :=
  m.map (fun row => row.map (fun _ => (0 : ℚ)))

/-- Pointwise `+=` of two 2-D arrays of the same shape (numpy broadcasting
never triggers in `postprocess`: every channel slice of `cams[0]` has the
same spatial shape). -/
def matAdd (a b : Mat) : Mat :=
  List.zipWith (fun ra rb => List.zipWith (fun x y => x + y) ra rb) a b

/-- `np.argsort xs`: the indices `0, …, xs.length - 1` ordered so that the
values `xs[i]` are ascending (modelled with a stable insertion sort, one of
the sorting permutations numpy may return). -/
def argsort (xs : List ℚ) : List Nat :=
  (List.range xs.length).insertionSort (fun i j => xs.getD i 0 ≤ xs.getD j 0)

/-- Python's `l[-k:]` on a list, for `k : Nat`: the last `k` elements when
`1 ≤ k ≤ l.length`, the whole list when `k = 0` (since `-0 = 0`) or when
`k > l.length`. -/
def sliceFromNegK (l : List Nat) (k : Nat) : List Nat :=
  if k = 0 then l else l.drop (l.length - k)

/-- Source function `postprocess(preds, cams, top_k=1)`:

    idxes = np.argsort(preds[0])[-top_k:]
    class_activation_map = np.zeros_like(cams[0, :, :, 0])
    for i in idxes:
        class_activation_map += cams[0, :, :, i]
    return class_activation_map
-/
def postprocess (preds : List (List ℚ)) (cams : Tensor4) (top_k : Nat := 1) : Mat :=
  let idxes := sliceFromNegK (argsort (preds.headD [])) top_k
  idxes.foldl (fun acc i => matAdd acc (camSlice cams i)) (zeros_like (camSlice cams 0))

/-- The specification's reading of the aggregation: the pointwise sum, over
the channel indices in `idxes`, of the spatial slices `cams[0, :, :, i]`. -/
def pointwiseSumOfSlices (cams : Tensor4) (idxes : List Nat) : Mat :=
  (cams.headD []).map (fun row => row.map
    (fun px => (idxes.map (fun i => px.getD i 0)).sum))

section PostprocessLemmas

lemma zipWith_map_same {α β γ : Type} (op : β → β → γ) (g h : α → β) (l : List α) :
    List.zipWith op (l.map g) (l.map h) = l.map (fun x => op (g x) (h x)) := by
  rw [List.zipWith_map, List.zipWith_same]

lemma matAdd_map_map (cams0 : List (List (List ℚ))) (f g : List ℚ → ℚ) :
    matAdd (cams0.map (fun row => row.map f)) (cams0.map (fun row => row.map g))
      = cams0.map (fun row => row.map (fun px => f px + g px)) := by
  unfold matAdd
  rw [zipWith_map_same]
  exact List.map_congr_left (fun row _ => zipWith_map_same _ _ _ row)

lemma foldl_matAdd_eq (cams0 : List (List (List ℚ))) (idxes : List Nat)
    (f : List ℚ → ℚ) :
    idxes.foldl
      (fun acc i => matAdd acc (cams0.map (fun row => row.map (fun px => px.getD i 0))))
      (cams0.map (fun row => row.map f))
      = cams0.map (fun row => row.map
          (fun px => f px + (idxes.map (fun i => px.getD i 0)).sum)) := by
  induction idxes generalizing f with
  | nil => simp
  | cons i rest ih =>
      rw [List.foldl_cons, matAdd_map_map, ih]
      simp [add_assoc]

/-- `postprocess` computes the pointwise sum of the channel slices selected
by the Python slice `np.argsort(preds[0])[-top_k:]`. -/
lemma postprocess_eq_pointwiseSum (preds : List (List ℚ)) (cams : Tensor4)
    (k : Nat) :
    postprocess preds cams k
      = pointwiseSumOfSlices cams (sliceFromNegK (argsort (preds.headD [])) k) := by
  unfold postprocess pointwiseSumOfSlices
  have hz : zeros_like (camSlice cams 0)
      = (cams.headD []).map (fun row => row.map (fun _ => (0 : ℚ))) := by
    unfold zeros_like camSlice
    simp [List.map_map, Function.comp]
  have hsl : ∀ i : Nat, camSlice cams i
      = (cams.headD []).map (fun row => row.map (fun px => px.getD i 0)) := by
    intro i; rfl
  rw [hz]
  simp only [hsl]
  rw [foldl_matAdd_eq]
  simp

end PostprocessLemmas

section ArgsortLemmas

lemma argsort_perm (xs : List ℚ) : (argsort xs).Perm (List.range xs.length) :=
  List.perm_insertionSort _ _

lemma argsort_length (xs : List ℚ) : (argsort xs).length = xs.length := by
  rw [(argsort_perm xs).length_eq, List.length_range]

lemma argsort_nodup (xs : List ℚ) : (argsort xs).Nodup :=
  (argsort_perm xs).nodup_iff.mpr (List.nodup_range xs.length)

lemma mem_argsort (xs : List ℚ) (i : Nat) : i ∈ argsort xs ↔ i < xs.length := by
  rw [(argsort_perm xs).mem_iff, List.mem_range]

lemma argsort_pairwise (xs : List ℚ) :
    (argsort xs).Pairwise (fun i j => xs.getD i 0 ≤ xs.getD j 0) := by
  haveI : IsTotal Nat (fun i j => xs.getD i 0 ≤ xs.getD j 0) :=
    ⟨fun a b => le_total _ _⟩
  haveI : IsTrans Nat (fun i j => xs.getD i 0 ≤ xs.getD j 0) :=
    ⟨fun a b c hab hbc => le_trans hab hbc⟩
  exact List.sorted_insertionSort _ (List.range xs.length)

/-- Every index kept by the slice `argsort xs [m:]` points to a value at
least as large as the value at any index dropped by the slice. -/
lemma argsort_drop_ge (xs : List ℚ) (m : Nat) :
    ∀ i ∈ (argsort xs).drop m, ∀ j, j < xs.length → j ∉ (argsort xs).drop m →
      xs.getD j 0 ≤ xs.getD i 0 := by
  intro i hi j hj hjnot
  have hsplit : argsort xs = (argsort xs).take m ++ (argsort xs).drop m :=
    (List.take_append_drop _ _).symm
  have hpw := argsort_pairwise xs
  rw [hsplit, List.pairwise_append] at hpw
  have hjmem : j ∈ argsort xs := (mem_argsort xs j).mpr hj
  rw [hsplit, List.mem_append] at hjmem
  rcases hjmem with hjtake | hjdrop
  · exact hpw.2.2 j hjtake i hi
  · exact absurd hjdrop hjnot

lemma sliceFromNegK_pos (l : List Nat) (k : Nat) (hk : 1 ≤ k) :
    sliceFromNegK l k = l.drop (l.length - k) := by
  unfold sliceFromNegK
  rw [if_neg (by omega)]

end ArgsortLemmas

section PostprocessClaims

/-- C1: for every prediction array `preds` with at least one row and every
activation tensor `cams`, `postprocess preds cams top_k` is the pointwise
sum, over the indices of the `top_k` largest entries of `preds[0]`, of the
slices `cams[0, :, :, i]`; with the default `top_k = 1` used by the main
pipeline it is exactly the activation map of the single
highest-probability class. -/
theorem postprocess_aggregates_top_classes (preds : List (List ℚ)) (cams : Tensor4)
    (k : Nat) (hpreds : preds ≠ []) (hk : 1 ≤ k) :
    (∃ idxes : List Nat,
        idxes.Nodup ∧
        (∀ i ∈ idxes, i < (preds.headD []).length) ∧
        idxes.length = min k (preds.headD []).length ∧
        (∀ i ∈ idxes, ∀ j, j < (preds.headD []).length → j ∉ idxes →
          (preds.headD []).getD j 0 ≤ (preds.headD []).getD i 0) ∧
        postprocess preds cams k = pointwiseSumOfSlices cams idxes) ∧
    ((preds.headD []) ≠ [] →
      ∃ jmax, jmax < (preds.headD []).length ∧
        (∀ j, j < (preds.headD []).length →
          (preds.headD []).getD j 0 ≤ (preds.headD []).getD jmax 0) ∧
        postprocess preds cams 1 = camSlice cams jmax) := by
  set xs := preds.headD [] with hxsdef
  have hslice : ∀ k0, 1 ≤ k0 →
      sliceFromNegK (argsort xs) k0 = (argsort xs).drop (xs.length - k0) := by
    intro k0 hk0
    rw [sliceFromNegK_pos _ _ hk0, argsort_length]
  constructor
  · refine ⟨(argsort xs).drop (xs.length - k), ?_, ?_, ?_, ?_, ?_⟩
    · exact (List.drop_sublist _ _).nodup (argsort_nodup xs)
    · intro i hi
      exact (mem_argsort xs i).mp ((List.drop_sublist _ _).mem hi)
    · rw [List.length_drop, argsort_length]
      omega
    · exact argsort_drop_ge xs (xs.length - k)
    · rw [postprocess_eq_pointwiseSum, hslice k hk]
  · intro hxs
    have hn : 1 ≤ xs.length := by
      cases hx : xs with
      | nil => exact absurd hx hxs
      | cons a t => simp [hx]
    have hlen1 : ((argsort xs).drop (xs.length - 1)).length = 1 := by
      rw [List.length_drop, argsort_length]
      omega
    obtain ⟨j, hj⟩ : ∃ j, (argsort xs).drop (xs.length - 1) = [j] := by
      cases hcase : (argsort xs).drop (xs.length - 1) with
      | nil => rw [hcase] at hlen1; simp at hlen1
      | cons a t =>
          rw [hcase] at hlen1
          simp only [List.length_cons, Nat.add_left_eq_self] at hlen1
          rw [List.length_eq_zero] at hlen1
          exact ⟨a, by rw [hlen1]⟩
    have hjmem : j ∈ (argsort xs).drop (xs.length - 1) := by
      rw [hj]; exact List.mem_singleton.mpr rfl
    refine ⟨j, (mem_argsort xs j).mp ((List.drop_sublist _ _).mem hjmem), ?_, ?_⟩
    · intro i hi
      by_cases hmem : i ∈ (argsort xs).drop (xs.length - 1)
      · rw [hj, List.mem_singleton] at hmem
        rw [hmem]
      · exact argsort_drop_ge xs (xs.length - 1) j hjmem i hi hmem
    · rw [postprocess_eq_pointwiseSum, hslice 1 le_rfl, hj]
      unfold pointwiseSumOfSlices camSlice
      simp

/-- Witness for C1 at `preds = [[1, 3, 2]]`, a `1 x 1 x 1 x 3` activation
tensor, and `top_k = 2`. -/
theorem postprocess_aggregates_top_classes_witness :
    ([[(1 : ℚ), 3, 2]] : List (List ℚ)) ≠ [] ∧ 1 ≤ 2 ∧
    ((∃ idxes : List Nat,
        idxes.Nodup ∧
        (∀ i ∈ idxes, i < (([[(1 : ℚ), 3, 2]] : List (List ℚ)).headD []).length) ∧
        idxes.length = min 2 (([[(1 : ℚ), 3, 2]] : List (List ℚ)).headD []).length ∧
        (∀ i ∈ idxes, ∀ j, j < (([[(1 : ℚ), 3, 2]] : List (List ℚ)).headD []).length →
          j ∉ idxes →
          (([[(1 : ℚ), 3, 2]] : List (List ℚ)).headD []).getD j 0
            ≤ (([[(1 : ℚ), 3, 2]] : List (List ℚ)).headD []).getD i 0) ∧
        postprocess [[(1 : ℚ), 3, 2]] [[[[10, 20, 30]]]] 2
          = pointwiseSumOfSlices [[[[10, 20, 30]]]] idxes) ∧
    ((([[(1 : ℚ), 3, 2]] : List (List ℚ)).headD []) ≠ [] →
      ∃ jmax, jmax < (([[(1 : ℚ), 3, 2]] : List (List ℚ)).headD []).length ∧
        (∀ j, j < (([[(1 : ℚ), 3, 2]] : List (List ℚ)).headD []).length →
          (([[(1 : ℚ), 3, 2]] : List (List ℚ)).headD []).getD j 0
            ≤ (([[(1 : ℚ), 3, 2]] : List (List ℚ)).headD []).getD jmax 0) ∧
        postprocess [[(1 : ℚ), 3, 2]] [[[[10, 20, 30]]]] 1
          = camSlice [[[[10, 20, 30]]]] jmax)) :=
  ⟨by decide, by decide,
    postprocess_aggregates_top_classes [[(1 : ℚ), 3, 2]] [[[[10, 20, 30]]]] 2
      (by decide) (by decide)⟩

lemma pointwiseSumOfSlices_congr_perm (cams : Tensor4) (l1 l2 : List Nat)
    (h : l1.Perm l2) :
    pointwiseSumOfSlices cams l1 = pointwiseSumOfSlices cams l2 := by
  unfold pointwiseSumOfSlices
  refine List.map_congr_left (fun row _ => List.map_congr_left (fun px _ => ?_))
  exact (h.map (fun i => px.getD i 0)).sum_eq

/-- C8: `postprocess` with `top_k = 0` sums all class activation channels
(the Python slice `idxes[-0:]` is the whole sorted index array), and so
does any `top_k` at least the number of classes. -/
theorem postprocess_topk_zero_sums_all_channels (preds : List (List ℚ))
    (cams : Tensor4) (k : Nat)
    (hk : k = 0 ∨ (preds.headD []).length ≤ k) :
    postprocess preds cams k
      = pointwiseSumOfSlices cams (List.range (preds.headD []).length) := by
  rw [postprocess_eq_pointwiseSum]
  have hall : sliceFromNegK (argsort (preds.headD [])) k = argsort (preds.headD []) := by
    unfold sliceFromNegK
    rcases hk with h0 | hge
    · rw [if_pos h0]
    · by_cases h0 : k = 0
      · rw [if_pos h0]
      · rw [if_neg h0, argsort_length]
        rw [Nat.sub_eq_zero_of_le hge, List.drop_zero]
  rw [hall]
  exact pointwiseSumOfSlices_congr_perm cams _ _ (argsort_perm _)

/-- Witness for C8 at `preds = [[5, 1]]`, a `1 x 1 x 1 x 2` activation
tensor and `top_k = 0`. -/
theorem postprocess_topk_zero_sums_all_channels_witness :
    ((0 : Nat) = 0 ∨ (([[(5 : ℚ), 1]] : List (List ℚ)).headD []).length ≤ 0) ∧
    postprocess [[(5 : ℚ), 1]] [[[[2, 4]]]] 0
      = pointwiseSumOfSlices [[[[2, 4]]]]
          (List.range (([[(5 : ℚ), 1]] : List (List ℚ)).headD []).length) :=
  ⟨Or.inl rfl,
    postprocess_topk_zero_sums_all_channels [[(5 : ℚ), 1]] [[[[2, 4]]]] 0 (Or.inl rfl)⟩

/-- C10: the array returned by `postprocess` always has the spatial shape of
`cams[0, :, :, 0]`, whatever `top_k` and `preds` are; `preds` and `top_k`
influence the result only through the selected channel indices
`np.argsort(preds[0])[-top_k:]` (in the pure embedding the inputs are, by
construction, not modified). -/
theorem postprocess_shape_invariant (preds preds2 : List (List ℚ))
    (cams : Tensor4) (k k2 : Nat)
    (hsel : sliceFromNegK (argsort (preds.headD [])) k
      = sliceFromNegK (argsort (preds2.headD [])) k2) :
    (postprocess preds cams k).map List.length
        = (camSlice cams 0).map List.length ∧
    (postprocess preds cams k).length = (camSlice cams 0).length ∧
    postprocess preds cams k = postprocess preds2 cams k2 := by
  refine ⟨?_, ?_, ?_⟩
  · rw [postprocess_eq_pointwiseSum]
    unfold pointwiseSumOfSlices camSlice
    simp [List.map_map, Function.comp]
  · rw [postprocess_eq_pointwiseSum]
    unfold pointwiseSumOfSlices camSlice
    simp
  · rw [postprocess_eq_pointwiseSum, postprocess_eq_pointwiseSum, hsel]

/-- Witness for C10 at two different prediction rows (`[[1, 2]]` and
`[[0, 5]]`) that select the same top channel. -/
theorem postprocess_shape_invariant_witness :
    sliceFromNegK (argsort (([[(1 : ℚ), 2]] : List (List ℚ)).headD [])) 1
      = sliceFromNegK (argsort (([[(0 : ℚ), 5]] : List (List ℚ)).headD [])) 1 ∧
    ((postprocess [[(1 : ℚ), 2]] [[[[7, 9]]]] 1).map List.length
        = (camSlice [[[[7, 9]]]] 0).map List.length ∧
      (postprocess [[(1 : ℚ), 2]] [[[[7, 9]]]] 1).length
        = (camSlice [[[[7, 9]]]] 0).length ∧
      postprocess [[(1 : ℚ), 2]] [[[[7, 9]]]] 1
        = postprocess [[(0 : ℚ), 5]] [[[[7, 9]]]] 1) :=
  ⟨by decide,
    postprocess_shape_invariant [[(1 : ℚ), 2]] [[(0 : ℚ), 5]] [[[[7, 9]]]] 1 1
      (by decide)⟩

end PostprocessClaims

/-! ### Backend selection (`__main__`, lines 119–127) -/

/-- The three pretrained backends the script can build. -/
inductive BackendChoice : Type
  | resnet50 : BackendChoice
  | nasnetLarge : BackendChoice
  | inceptionResNetV2 : BackendChoice
deriving DecidableEq

/-- The message of the `ValueError` raised for an unknown base network. -/
def valueErrorMsg : String :=
  "The base network should be one of resnet, nasnet, or inception."

/-- The `if/elif/else` chain of `__main__` that picks the backend from
`args.base_network`, raising `ValueError` for any other string. -/
def selectBackend (base_network : String) : Except String BackendChoice :=
  if base_network = "resnet" then Except.ok BackendChoice.resnet50
  else if base_network = "nasnet" then Except.ok BackendChoice.nasnetLarge
  else if base_network = "inception" then Except.ok BackendChoice.inceptionResNetV2
  else Except.error valueErrorMsg

/-- The declared default of the `base_network` command-line argument
(line 27 of the source). -/
def defaultBaseNetwork : String := "resnet50"

/-- C4: `'resnet'` selects ResNet50, `'nasnet'` selects NASNetLarge,
`'inception'` selects InceptionResNetV2, and every other string yields the
`ValueError` (the `Except.error` branch constructs no backend, so no state
is touched on the error path). -/
theorem selectBackend_exhaustive (s : String)
    (h1 : s ≠ "resnet") (h2 : s ≠ "nasnet") (h3 : s ≠ "inception") :
    selectBackend "resnet" = Except.ok BackendChoice.resnet50 ∧
    selectBackend "nasnet" = Except.ok BackendChoice.nasnetLarge ∧
    selectBackend "inception" = Except.ok BackendChoice.inceptionResNetV2 ∧
    selectBackend s = Except.error valueErrorMsg := by
  refine ⟨rfl, rfl, rfl, ?_⟩
  unfold selectBackend
  rw [if_neg h1, if_neg h2, if_neg h3]

/-- Witness for C4 at the unknown backend string `"vgg"`. -/
theorem selectBackend_exhaustive_witness :
    ("vgg" ≠ "resnet" ∧ "vgg" ≠ "nasnet" ∧ "vgg" ≠ "inception") ∧
    (selectBackend "resnet" = Except.ok BackendChoice.resnet50 ∧
      selectBackend "nasnet" = Except.ok BackendChoice.nasnetLarge ∧
      selectBackend "inception" = Except.ok BackendChoice.inceptionResNetV2 ∧
      selectBackend "vgg" = Except.error valueErrorMsg) :=
  ⟨⟨by decide, by decide, by decide⟩,
    selectBackend_exhaustive "vgg" (by decide) (by decide) (by decide)⟩

/-- C9: the declared default `'resnet50'` of the `base_network` argument is
not itself an accepted backend name: fed to the selection logic it matches
none of the three branches and raises the `ValueError`. -/
theorem defaultBaseNetwork_rejected :
    defaultBaseNetwork = "resnet50" ∧
    defaultBaseNetwork ≠ "resnet" ∧
    defaultBaseNetwork ≠ "nasnet" ∧
    defaultBaseNetwork ≠ "inception" ∧
    selectBackend defaultBaseNetwork = Except.error valueErrorMsg :=
  ⟨rfl, by decide, by decide, by decide, rfl⟩

/-! ### The grafted CAM head and its output resolution -/

/-- Static configuration a `_Backend` subclass passes to `_Backend.__init__`:
the network input size and the names of the last convolutional layer and of
the final classification layer. -/
structure BackendConfig : Type where
  input_size : Nat
  last_conv_layer : String
  pred_layer : String
deriving DecidableEq

/-- `BackendResNet50.__init__` (lines 87–93). -/
def backendResNet50 : BackendConfig := ⟨224, "activation_49", "fc1000"⟩

/-- `BackendInceptionResNetV2.__init__` (lines 75–84). -/
def backendInceptionResNetV2 : BackendConfig := ⟨299, "conv_7b_ac", "predictions"⟩

/-- `BackendNASNetLarge.__init__` (lines 96–105). -/
def backendNASNetLarge : BackendConfig := ⟨331, "activation_260", "predictions"⟩

/-- Configuration of the grafted `Conv2D` layer
`Conv2D(filters=N_CLASSES, kernel_size=(1, 1), name="predictions_2")`. -/
structure Conv2DConfig : Type where
  filters : Nat
  kernel_size : Nat × Nat
  layer_name : String
deriving DecidableEq

/-- The grafted 1x1 convolution layer of `_create_cam_model` (lines 66–67). -/
def predictions_2_layer : Conv2DConfig := ⟨N_CLASSES, (1, 1), "predictions_2"⟩

/-- The fixed size argument of `UpSampling2D(size=(32, 32))` (line 64),
used for every backend. -/
def upSampling2D_size : Nat × Nat := (32, 32)

/-- Spatial shape of a `UpSampling2D(size)` output: each spatial dimension
is multiplied by the corresponding factor. -/
def upSampling2D_spatial (size hw : Nat × Nat) : Nat × Nat :=
  (size.1 * hw.1, size.2 * hw.2)

/-- Spatial shape of a `Conv2D` output with keras's default `valid` padding
and unit strides: `dim - kernel + 1` in each spatial dimension. -/
def conv2D_valid_spatial (kernel hw : Nat × Nat) : Nat × Nat :=
  (hw.1 - kernel.1 + 1, hw.2 - kernel.2 + 1)

/-- Spatial shape of the grafted CAM head output for a last convolutional
feature map of spatial shape `hw`: `UpSampling2D((32, 32))` then the 1x1
`predictions_2` convolution (lines 63–67). -/
def camHeadSpatial (hw : Nat × Nat) : Nat × Nat :=
  conv2D_valid_spatial predictions_2_layer.kernel_size
    (upSampling2D_spatial upSampling2D_size hw)

/-- Modelled from the spec: the pretrained backbone implementations
(`keras.applications`) are not under `src/`; the spec treats them as the
feature extractors. ResNet50's last convolutional layer `activation_49` at
`224 x 224` input has spatial size `7 x 7` (the network downsamples by a
factor of 32). -/
def resNet50LastConvSpatial : Nat × Nat := (7, 7)

/-- Modelled from the spec: InceptionResNetV2's last convolutional layer
`conv_7b_ac` at `299 x 299` input has spatial size `8 x 8` (the backbone
implementation is not under `src/`). -/
def inceptionResNetV2LastConvSpatial : Nat × Nat := (8, 8)

/-- Modelled from the spec: NASNetLarge's last convolutional layer
`activation_260` at `331 x 331` input has spatial size `11 x 11` (the
backbone implementation is not under `src/`). -/
def nasNetLargeLastConvSpatial : Nat × Nat := (11, 11)

/-- C2 counterexample: for InceptionResNetV2 the grafted CAM output is
`256 x 256`, not the input resolution `299 x 299`. -/
theorem camHead_not_input_resolution_counterexample :
    camHeadSpatial inceptionResNetV2LastConvSpatial
      ≠ (backendInceptionResNetV2.input_size, backendInceptionResNetV2.input_size) := by
  decide

/-- C2 amended: the code applies a fixed bilinear `UpSampling2D` of factor
`(32, 32)` regardless of backend, so the CAM head output is `32h x 32w` for
an `h x w` feature map. That equals the input resolution for ResNet50
(`7 x 7 → 224 x 224`), but for InceptionResNetV2 and NASNetLarge the output
(`256 x 256` resp. `352 x 352` on the modelled `8 x 8` and `11 x 11` maps)
cannot equal the input resolution for any integer feature-map size, since
299 and 331 are not multiples of 32. -/
theorem camHead_resolution_amended :
    upSampling2D_size = (32, 32) ∧
    camHeadSpatial resNet50LastConvSpatial
      = (backendResNet50.input_size, backendResNet50.input_size) ∧
    camHeadSpatial inceptionResNetV2LastConvSpatial = (256, 256) ∧
    camHeadSpatial nasNetLargeLastConvSpatial = (352, 352) ∧
    (∀ fm : Nat × Nat, camHeadSpatial fm
      ≠ (backendInceptionResNetV2.input_size, backendInceptionResNetV2.input_size)) ∧
    (∀ fm : Nat × Nat, camHeadSpatial fm
      ≠ (backendNASNetLarge.input_size, backendNASNetLarge.input_size)) := by
  refine ⟨rfl, rfl, rfl, rfl, ?_, ?_⟩ <;>
    · rintro ⟨h, w⟩ heq
      simp only [camHeadSpatial, conv2D_valid_spatial, upSampling2D_spatial,
        upSampling2D_size, predictions_2_layer, backendInceptionResNetV2,
        backendNASNetLarge, Prod.mk.injEq] at heq
      omega

/-! ### Grafting the classification weights (`_create_cam_model`, lines 59–71) -/

/-- Row-major flattening of a 2-D numpy array. -/
def npFlatten (w : List (List ℚ)) : List ℚ :=
  w.flatMap id

/-- Split a flat list into consecutive chunks of `n` elements (row-major
regrouping; the recursion stops on `n = 0` or an empty remainder). -/
def chunksOf (n : Nat) (l : List ℚ) : List (List ℚ) :=
  if h : n = 0 ∨ l = [] then []
  else l.take n :: chunksOf n (l.drop n)
termination_by l.length
decreasing_by
  push_neg at h
  have hl : 0 < l.length := List.length_pos.mpr h.2
  rw [List.length_drop]
  omega

/-- `w.reshape(1, 1, -1, n)` on a 2-D array `w`: flatten row-major, infer
the third dimension from the element count (numpy requires the count to be
divisible by `n`, else it raises `ValueError`), and regroup. The result is
a 4-D array whose leading two dimensions have extent 1. -/
def npReshape_1_1_neg1 (w : List (List ℚ)) (n : Nat) : Option Tensor4 :=
  if n ≠ 0 ∧ (npFlatten w).length % n = 0 then some [[chunksOf n (npFlatten w)]]
  else none

/-- `final_params` after line 60: the final classification layer's weight
matrix reshaped to `(1, 1, -1, N_CLASSES)` and its bias taken unchanged;
this pair is what `set_weights` installs on `predictions_2` (line 71). -/
def graftedPredictions2Params (w : List (List ℚ)) (b : List ℚ) :
    Option (Tensor4 × List ℚ) :=
  (npReshape_1_1_neg1 w N_CLASSES).map (fun kernel => (kernel, b))

lemma npFlatten_cons (row : List ℚ) (rest : List (List ℚ)) :
    npFlatten (row :: rest) = row ++ npFlatten rest := rfl

lemma chunksOf_nil (n : Nat) : chunksOf n [] = [] := by
  rw [chunksOf, dif_pos (Or.inr rfl)]

lemma chunksOf_append (n : Nat) (xs ys : List ℚ) (hn : 0 < n)
    (hxs : xs.length = n) :
    chunksOf n (xs ++ ys) = xs :: chunksOf n ys := by
  have hne : ¬ (n = 0 ∨ xs ++ ys = []) := by
    push_neg
    refine ⟨by omega, fun hcon => ?_⟩
    rw [(List.append_eq_nil.mp hcon).1] at hxs
    simp at hxs
    omega
  rw [chunksOf, dif_neg hne, List.take_left' hxs, List.drop_left' hxs]

/-- Row-major regrouping by the row length undoes row-major flattening. -/
lemma chunksOf_npFlatten (w : List (List ℚ)) (n : Nat) (hn : 0 < n)
    (hw : ∀ row ∈ w, row.length = n) :
    chunksOf n (npFlatten w) = w := by
  induction w with
  | nil => exact chunksOf_nil n
  | cons row rest ih =>
      have hrow : row.length = n := hw row (List.mem_cons_self row rest)
      have hrest : ∀ r ∈ rest, r.length = n :=
        fun r hr => hw r (List.mem_cons_of_mem row hr)
      rw [npFlatten_cons, chunksOf_append n row _ hn hrow, ih hrest]

lemma npFlatten_length (w : List (List ℚ)) (n : Nat)
    (hw : ∀ row ∈ w, row.length = n) :
    (npFlatten w).length = w.length * n := by
  induction w with
  | nil => simp [npFlatten]
  | cons row rest ih =>
      have hrow : row.length = n := hw row (List.mem_cons_self row rest)
      have hrest : ∀ r ∈ rest, r.length = n :=
        fun r hr => hw r (List.mem_cons_of_mem row hr)
      rw [npFlatten_cons, List.length_append, hrow, ih hrest, List.length_cons]
      ring

/-- C3: for every weight matrix `w` whose rows have length
`N_CLASSES = 1000` and every bias `b`, the grafted `predictions_2` layer is
a 1x1 convolution with 1000 filters whose kernel is `w` reshaped to
`(1, 1, D, 1000)` with `D = w.length` inferred by numpy's `-1`, the entries
in unchanged row-major order (`kernel[0][0] = w`), and whose bias is `b`
unchanged. -/
theorem grafted_predictions2_reshape (w : List (List ℚ)) (b : List ℚ)
    (hw : ∀ row ∈ w, row.length = N_CLASSES) :
    graftedPredictions2Params w b = some ([[w]], b) ∧
    (∀ kb ∈ graftedPredictions2Params w b,
      kb.1.length = 1 ∧ (∀ t3 ∈ kb.1, t3.length = 1) ∧
      (∀ t3 ∈ kb.1, ∀ mat ∈ t3, mat.length = w.length) ∧ kb.2 = b) ∧
    predictions_2_layer.filters = 1000 ∧
    predictions_2_layer.kernel_size = (1, 1) ∧
    predictions_2_layer.layer_name = "predictions_2" := by
  have hN : 0 < N_CLASSES := by decide
  have hlen : (npFlatten w).length % N_CLASSES = 0 := by
    rw [npFlatten_length w N_CLASSES hw, Nat.mul_mod_left]
  have hmain : graftedPredictions2Params w b = some ([[w]], b) := by
    unfold graftedPredictions2Params npReshape_1_1_neg1
    rw [if_pos ⟨by omega, hlen⟩]
    show some ([[chunksOf N_CLASSES (npFlatten w)]], b) = some ([[w]], b)
    rw [chunksOf_npFlatten w N_CLASSES hN hw]
  refine ⟨hmain, ?_, rfl, rfl, rfl⟩
  intro kb hkb
  rw [hmain, Option.mem_some_iff] at hkb
  rw [← hkb]
  refine ⟨rfl, ?_, ?_, rfl⟩
  · intro t3 ht3
    rw [List.mem_singleton] at ht3
    rw [ht3]
    rfl
  · intro t3 ht3 mat hmat
    rw [List.mem_singleton] at ht3
    rw [ht3, List.mem_singleton] at hmat
    rw [hmat]

/-- Witness for C3 at a `2 x 1000` weight matrix and the bias `[1, 2]`. -/
theorem grafted_predictions2_reshape_witness :
    (∀ row ∈ [List.replicate 1000 (3 : ℚ), List.replicate 1000 (4 : ℚ)],
      row.length = N_CLASSES) ∧
    (graftedPredictions2Params
        [List.replicate 1000 (3 : ℚ), List.replicate 1000 (4 : ℚ)] [1, 2]
      = some ([[[List.replicate 1000 (3 : ℚ), List.replicate 1000 (4 : ℚ)]]], [1, 2]) ∧
    (∀ kb ∈ graftedPredictions2Params
        [List.replicate 1000 (3 : ℚ), List.replicate 1000 (4 : ℚ)] [1, 2],
      kb.1.length = 1 ∧ (∀ t3 ∈ kb.1, t3.length = 1) ∧
      (∀ t3 ∈ kb.1, ∀ mat ∈ t3,
        mat.length = [List.replicate 1000 (3 : ℚ), List.replicate 1000 (4 : ℚ)].length) ∧
      kb.2 = [1, 2]) ∧
    predictions_2_layer.filters = 1000 ∧
    predictions_2_layer.kernel_size = (1, 1) ∧
    predictions_2_layer.layer_name = "predictions_2") :=
  ⟨by
      intro row hrow
      rcases List.mem_cons.mp hrow with h | h
      · rw [h, List.length_replicate]; rfl
      · rw [List.mem_singleton.mp h, List.length_replicate]; rfl,
    grafted_predictions2_reshape
      [List.replicate 1000 (3 : ℚ), List.replicate 1000 (4 : ℚ)] [1, 2]
      (by
        intro row hrow
        rcases List.mem_cons.mp hrow with h | h
        · rw [h, List.length_replicate]; rfl
        · rw [List.mem_singleton.mp h, List.length_replicate]; rfl)⟩

/-! ### Image loading (`_Backend.load_img`, lines 45–50) -/

/-- A decoded image: rows x pixels x channels. -/
abbrev Image : Type := List (List (List ℚ))

/-- `img.shape[0]`: the number of rows. -/
def imgHeight (img : Image) : Nat := img.length

/-- `img.shape[1]`: the number of pixels per row. -/
def imgWidth (img : Image) : Nat := (img.headD []).length

/-- `img[:, :, ::-1]` (line 46): reverse the channel axis (BGR to RGB). -/
def reverseChannels (img : Image) : Image :=
  img.map (fun row => row.map (fun px => px.reverse))

/-- `original_size = (original_img.shape[1], original_img.shape[0])`
(line 47): the `(width, height)` pair of an image. -/
def originalSize (img : Image) : Nat × Nat := (imgWidth img, imgHeight img)

/-- `img` has `h` rows, each of `w` pixels, each with `c` channels. -/
def hasShape (img : Image) (h w c : Nat) : Prop :=
  img.length = h ∧ ∀ row ∈ img, row.length = w ∧ ∀ px ∈ row, px.length = c

instance instDecidableHasShape (img : Image) (h w c : Nat) :
    Decidable (hasShape img h w c) := by
  unfold hasShape
  infer_instance

/-- Modelled from the spec: `cv2.resize` is an external collaborator (the
spec treats image resizing as given); modelled as nearest-neighbour
sampling producing exactly the requested `dsize = (width, height)`: the
output has `height` rows of `width` pixels each. -/
def cvResize (img : Image) (dsize : Nat × Nat) : Image :=
  (List.range dsize.2).map (fun r =>
    (List.range dsize.1).map (fun c =>
      (img.getD (r * imgHeight img / dsize.2) []).getD (c * imgWidth img / dsize.1) []))

/-- `_Backend.load_img` without the file read: `decoded` is the BGR pixel
array `cv2.imread(fname)` produced. Returns
`(imgs, original_img, original_size)` where
`imgs = np.expand_dims(preprocess_fn(resized), 0)` is a batch of one. -/
def load_img (preprocess_fn : Image → Image) (input_size : Nat)
    (decoded : Image) : List Image × Image × (Nat × Nat) :=
  let original_img := reverseChannels decoded
  let original_size := originalSize original_img
  let img := cvResize original_img (input_size, input_size)
  let imgs := [preprocess_fn img]
  (imgs, original_img, original_size)

lemma hasShape_reverseChannels (img : Image) (h w c : Nat)
    (hs : hasShape img h w c) : hasShape (reverseChannels img) h w c := by
  obtain ⟨hlen, hrows⟩ := hs
  refine ⟨by rw [reverseChannels, List.length_map, hlen], ?_⟩
  intro row hrow
  rw [reverseChannels, List.mem_map] at hrow
  obtain ⟨row0, hrow0, hmap⟩ := hrow
  obtain ⟨hrw, hpx⟩ := hrows row0 hrow0
  refine ⟨by rw [← hmap, List.length_map, hrw], ?_⟩
  intro px hpxmem
  rw [← hmap, List.mem_map] at hpxmem
  obtain ⟨px0, hpx0, hpxeq⟩ := hpxmem
  rw [← hpxeq, List.length_reverse]
  exact hpx px0 hpx0

lemma headD_mem_of_pos (img : Image) (hpos : 0 < img.length) :
    img.headD [] ∈ img := by
  cases img with
  | nil => simp at hpos
  | cons a t => exact List.mem_cons_self a t

lemma originalSize_of_hasShape (img : Image) (h w c : Nat) (hh : 0 < h)
    (hs : hasShape img h w c) : originalSize img = (w, h) := by
  obtain ⟨hlen, hrows⟩ := hs
  have hmem : img.headD [] ∈ img := headD_mem_of_pos img (by omega)
  unfold originalSize imgWidth imgHeight
  rw [hlen, (hrows _ hmem).1]

lemma getD_mem_of_lt {α : Type} (l : List α) (n : Nat) (d : α)
    (hlt : n < l.length) : l.getD n d ∈ l := by
  rw [List.getD_eq_getElem l d hlt]
  exact List.getElem_mem hlt

lemma cvResize_hasShape (img : Image) (h w c tw th : Nat)
    (hs : hasShape img h w c) (hh : 0 < h) (hw : 0 < w) :
    hasShape (cvResize img (tw, th)) th tw c := by
  obtain ⟨hlen, hrows⟩ := hs
  have hheight : imgHeight img = h := hlen
  have hwidth : imgWidth img = w := by
    have hmem : img.headD [] ∈ img := headD_mem_of_pos img (by omega)
    exact (hrows _ hmem).1
  refine ⟨by simp [cvResize], ?_⟩
  intro row hrow
  rw [cvResize, List.mem_map] at hrow
  obtain ⟨r, hr, hmap⟩ := hrow
  rw [List.mem_range] at hr
  have hth : 0 < th := by omega
  refine ⟨by rw [← hmap, List.length_map, List.length_range], ?_⟩
  intro px hpx
  rw [← hmap, List.mem_map] at hpx
  obtain ⟨cc, hcc, hpxeq⟩ := hpx
  rw [List.mem_range] at hcc
  have htw : 0 < tw := by omega
  have hridx : r * imgHeight img / th < img.length := by
    rw [hheight, hlen, Nat.div_lt_iff_lt_mul hth]
    calc r * h < th * h := by
          exact Nat.mul_lt_mul_of_lt_of_le hr le_rfl hh
      _ = h * th := Nat.mul_comm th h
  have hrowmem : img.getD (r * imgHeight img / th) [] ∈ img :=
    getD_mem_of_lt img _ [] hridx
  obtain ⟨hrw, hpxlen⟩ := hrows _ hrowmem
  have hcidx : cc * imgWidth img / tw < (img.getD (r * imgHeight img / th) []).length := by
    rw [hrw, hwidth, Nat.div_lt_iff_lt_mul htw]
    calc cc * w < tw * w := by
          exact Nat.mul_lt_mul_of_lt_of_le hcc le_rfl hw
      _ = w * tw := Nat.mul_comm tw w
  rw [← hpxeq]
  exact hpxlen _ (getD_mem_of_lt _ _ [] hcidx)

/-- C5: for every decoded image, `load_img` returns a triple
`(preprocessed_batch, original_image, original_size)` whose batch holds
exactly one image of shape `(input_size, input_size, 3)` — the batch has
shape `(1, input_size, input_size, 3)` — obtained by resizing the original
image to `input_size x input_size` and applying the backend's preprocess
function, and whose `original_size` is the `(width, height)` pair of the
original image. -/
theorem load_img_spec (preprocess_fn : Image → Image) (input_size : Nat)
    (decoded : Image) (h w : Nat)
    (hpf : ∀ img h2 w2 c2, hasShape img h2 w2 c2 →
      hasShape (preprocess_fn img) h2 w2 c2)
    (hdec : hasShape decoded h w 3) (hh : 0 < h) (hw : 0 < w) :
    (load_img preprocess_fn input_size decoded).1.length = 1 ∧
    (∀ im ∈ (load_img preprocess_fn input_size decoded).1,
      hasShape im input_size input_size 3) ∧
    (load_img preprocess_fn input_size decoded).1
      = [preprocess_fn (cvResize (reverseChannels decoded) (input_size, input_size))] ∧
    (load_img preprocess_fn input_size decoded).2.2 = (w, h) ∧
    hasShape (load_img preprocess_fn input_size decoded).2.1 h w 3 := by
  have horig : hasShape (reverseChannels decoded) h w 3 :=
    hasShape_reverseChannels decoded h w 3 hdec
  refine ⟨rfl, ?_, rfl, ?_, horig⟩
  · intro im him
    rw [show (load_img preprocess_fn input_size decoded).1
        = [preprocess_fn (cvResize (reverseChannels decoded)
            (input_size, input_size))] from rfl, List.mem_singleton] at him
    rw [him]
    exact hpf _ _ _ _
      (cvResize_hasShape (reverseChannels decoded) h w 3 input_size input_size
        horig hh hw)
  · exact originalSize_of_hasShape (reverseChannels decoded) h w 3 hh horig

/-- Witness for C5 at the identity preprocess, `input_size = 2` and a
`1 x 1 x 3` decoded image. -/
theorem load_img_spec_witness :
    ((∀ img h2 w2 c2, hasShape img h2 w2 c2 → hasShape (id img) h2 w2 c2) ∧
      hasShape [[[(1 : ℚ), 2, 3]]] 1 1 3 ∧ 0 < 1) ∧
    ((load_img id 2 [[[(1 : ℚ), 2, 3]]]).1.length = 1 ∧
      (∀ im ∈ (load_img id 2 [[[(1 : ℚ), 2, 3]]]).1, hasShape im 2 2 3) ∧
      (load_img id 2 [[[(1 : ℚ), 2, 3]]]).1
        = [id (cvResize (reverseChannels [[[(1 : ℚ), 2, 3]]]) (2, 2))] ∧
      (load_img id 2 [[[(1 : ℚ), 2, 3]]]).2.2 = (1, 1) ∧
      hasShape (load_img id 2 [[[(1 : ℚ), 2, 3]]]).2.1 1 1 3) :=
  ⟨⟨fun _ _ _ _ hs => hs, by decide, by decide⟩,
    load_img_spec id 2 [[[(1 : ℚ), 2, 3]]] 1 1 (fun _ _ _ _ hs => hs)
      (by decide) (by decide) (by decide)⟩

/-! ### Display overlay (`__main__`, lines 139–143) -/

/-- Modelled from the spec: `cv2.resize` on the 2-D activation map, an
external collaborator; modelled as nearest-neighbour sampling producing
exactly the requested `dsize = (width, height)`. -/
def cvResize2D (m : Mat) (dsize : Nat × Nat) : Mat :=
  (List.range dsize.2).map (fun r =>
    (List.range dsize.1).map (fun c =>
      (m.getD (r * m.length / dsize.2) []).getD (c * (m.headD []).length / dsize.1) 0))

/-- Line 141–142: the aggregated class activation map is resized to
`original_size` before being drawn over the original image. -/
def overlayResizedCam (class_activation_map : Mat) (original_size : Nat × Nat) :
    Mat :=
  cvResize2D class_activation_map original_size

lemma cvResize2D_shape (m : Mat) (tw th : Nat) :
    (cvResize2D m (tw, th)).length = th ∧
    ∀ row ∈ cvResize2D m (tw, th), row.length = tw := by
  refine ⟨by simp [cvResize2D], ?_⟩
  intro row hrow
  rw [cvResize2D, List.mem_map] at hrow
  obtain ⟨r, -, hmap⟩ := hrow
  rw [← hmap, List.length_map, List.length_range]

/-- C6: before display the aggregated class activation map is resized to
`original_size` as returned by `load_img`, so the overlay drawn on the
original image has the original image's height and width — not the network
input resolution. -/
theorem overlay_has_original_size (cam : Mat) (preprocess_fn : Image → Image)
    (input_size : Nat) (decoded : Image) (h w : Nat)
    (hdec : hasShape decoded h w 3) (hh : 0 < h) :
    (overlayResizedCam cam
        (load_img preprocess_fn input_size decoded).2.2).length = h ∧
    (∀ row ∈ overlayResizedCam cam
        (load_img preprocess_fn input_size decoded).2.2, row.length = w) := by
  have horig : hasShape (reverseChannels decoded) h w 3 :=
    hasShape_reverseChannels decoded h w 3 hdec
  have hosize : (load_img preprocess_fn input_size decoded).2.2 = (w, h) :=
    originalSize_of_hasShape (reverseChannels decoded) h w 3 hh horig
  rw [hosize]
  exact cvResize2D_shape cam w h

/-- Witness for C6 at a `1 x 2` activation map and a `1 x 1 x 3` decoded
image. -/
theorem overlay_has_original_size_witness :
    (hasShape [[[(1 : ℚ), 2, 3]]] 1 1 3 ∧ 0 < 1) ∧
    ((overlayResizedCam [[(5 : ℚ), 6]]
        (load_img id 4 [[[(1 : ℚ), 2, 3]]]).2.2).length = 1 ∧
      (∀ row ∈ overlayResizedCam [[(5 : ℚ), 6]]
          (load_img id 4 [[[(1 : ℚ), 2, 3]]]).2.2, row.length = 1)) :=
  ⟨⟨by decide, by decide⟩,
    overlay_has_original_size [[(5 : ℚ), 6]] id 4 [[[(1 : ℚ), 2, 3]]] 1 1
      (by decide) (by decide)⟩

/-! ### The two-output CAM model (`_create_cam_model` and `predict`) -/

/-- Modelled from the spec: the pretrained keras backbone as the spec's
`run_model` collaborator sees it — a classification output (`model.output`,
the class probabilities) and the output of its named last convolutional
layer. The keras `Model` implementation is not under `src/`. -/
structure KerasBackbone (α β γ : Type) : Type where
  output : α → β
  lastConvOutput : α → γ

/-- Modelled from the spec: `Model(inputs=model.input, outputs=[model.output, x])`
(lines 69–70), where `x` is the grafted head (upsampling then the 1x1
convolution) applied to the last convolutional output; a functional model
with two outputs evaluates both on the same input, in the listed order. -/
def create_cam_model {α β γ δ : Type} (model : KerasBackbone α β γ)
    (upsampleConv : γ → δ) : α → β × δ :=
  fun imgs => (model.output imgs, upsampleConv (model.lastConvOutput imgs))

/-- `_Backend.predict` (lines 52–54): `preds, cams = self.cam_model.predict(imgs)`. -/
def predict {α β δ : Type} (cam_model : α → β × δ) (imgs : α) : β × δ :=
  cam_model imgs

/-- C7: for every input batch, `predict` returns a pair whose first
component is the backbone's classification output and whose second
component is the output of the grafted CAM head, in that order, matching
`Model(inputs=model.input, outputs=[model.output, x])`. -/
theorem predict_output_order {α β γ δ : Type} (model : KerasBackbone α β γ)
    (upsampleConv : γ → δ) (imgs : α) :
    predict (create_cam_model model upsampleConv) imgs
      = (model.output imgs, upsampleConv (model.lastConvOutput imgs)) ∧
    (predict (create_cam_model model upsampleConv) imgs).1
      = model.output imgs ∧
    (predict (create_cam_model model upsampleConv) imgs).2
      = upsampleConv (model.lastConvOutput imgs) :=
  ⟨rfl, rfl, rfl⟩

end ClassActivationMaps
